import Mathlib

set_option maxHeartbeats 1000000

namespace Manim

/-
Shallow embedding of `manimlib/camera/camera.py`.

Part 1 models the `Camera` class's GPU-resource bookkeeping: the GL context is
modelled as a fresh-id allocator together with the set of allocated-and-not-yet
released GL objects, and Python dicts are modelled as association lists with
Python's assignment semantics (replace the entry in place, append new keys).
-/

/-- Model of the external shader-unit collaborator (a `ShaderWrapper`): its
program signature (`get_program_id`), whether `vert_indices` is present
(`vert_indices is not None`), whether the index byte data is nonempty, its
uniform name/value pairs and its texture-uniform name/path pairs.  Uniform
values are abstracted as naturals. -/
structure ShaderWrapper where
  progId : String
  hasVertIndices : Bool
  indexDataNonempty : Bool
  uniforms : List (String × Nat)
  texturePaths : List (String × String)
  deriving DecidableEq

/-- Model of a drawable (`Mobject`): its Python identity `id(mob)` and the
shader units returned by `get_shader_wrapper_list()`. -/
structure Mobject where
  mid : Nat
  shaderWrappers : List ShaderWrapper
  deriving DecidableEq

/-- A render group as built by `Camera.get_render_group`: vertex buffer, an
optional index buffer, vertex array object, the (optional) compiled program's
object id, the shader unit it was built from, and the single-use flag.
GL objects are identified by the natural number the allocator handed out. -/
structure RenderGroup where
  vbo : Nat
  ibo : Option Nat
  vao : Nat
  prog : Option Nat
  sw : ShaderWrapper
  singleUse : Bool
  deriving DecidableEq

/-- Python-dict lookup on an association list (first matching key). -/
def dictGet {K V : Type} [DecidableEq K] (k : K) : List (K × V) → Option V
  | [] => none
  | (k', v) :: rest => if k' = k then some v else dictGet k rest

/-- Python-dict assignment `d[k] = v`: replace the entry for `k` in place if it
exists, otherwise append the new entry at the end. -/
def dictSet {K V : Type} [DecidableEq K] (k : K) (v : V) : List (K × V) → List (K × V)
  | [] => [(k, v)]
  | (k', v') :: rest => if k' = k then (k, v) :: rest else (k', v') :: dictSet k v rest

/-- Python-dict removal `d.pop(k, None)` (the removal part). -/
def dictDrop {K V : Type} [DecidableEq K] (k : K) (l : List (K × V)) : List (K × V) :=
  l.filter (fun p => decide (p.1 ≠ k))

/-- Number of entries stored for key `k`. -/
def countKey {K V : Type} [DecidableEq K] (k : K) (l : List (K × V)) : Nat :=
  (l.filter (fun p => decide (p.1 = k))).length

/-- State of a `Camera`'s resource bookkeeping: the GL fresh-id counter, the
GL objects currently allocated and not released, the program cache
`id_to_shader_program`, the texture counter `n_textures` and cache
`path_to_texture` (path to slot id and texture object), and the static index
`static_mobject_to_render_group_list`. -/
structure CameraState where
  nextGL : Nat
  alive : List Nat
  idToShaderProgram : List (String × Option (Nat × Nat))
  nTextures : Nat
  pathToTexture : List (String × (Nat × Nat))
  staticIndex : List (Nat × List RenderGroup)
  deriving DecidableEq

/-- Allocate a fresh GL object (buffer, vertex array, program or texture). -/
def allocGL (s : CameraState) : Nat × CameraState :=
  (s.nextGL, { s with nextGL := s.nextGL + 1, alive := s.nextGL :: s.alive })

/-- Release a GL object: it is no longer alive. -/
def releaseObj (s : CameraState) (n : Nat) : CameraState :=
  { s with alive := s.alive.filter (fun m => decide (m ≠ n)) }

/-- Translation of `Camera.init_shaders`: the cache starts with the null
signature mapped to no program. -/
def init_shaders : List (String × Option (Nat × Nat)) := [("", none)]

/-- The resource state of a freshly constructed `Camera` (after
`init_shaders` and `init_textures`, with an empty static index). -/
def initCamera : CameraState :=
  { nextGL := 0, alive := [], idToShaderProgram := init_shaders,
    nTextures := 0, pathToTexture := [], staticIndex := [] }

/-- Translation of `Camera.get_shader_program`: look the signature up in
`id_to_shader_program`; on a miss, compile (`ctx.program`, modelled as
allocating a fresh GL object) and detect the vertex format (modelled as a tag
derived from the program), cache the pair, and return the cached entry. -/
def get_shader_program (s : CameraState) (sw : ShaderWrapper) :
    Option (Nat × Nat) × CameraState :=
  match dictGet sw.progId s.idToShaderProgram with
  | some entry => (entry, s)
  | none =>
      (some (s.nextGL, s.nextGL),
       { s with nextGL := s.nextGL + 1,
                alive := s.nextGL :: s.alive,
                idToShaderProgram :=
                  dictSet sw.progId (some (s.nextGL, s.nextGL)) s.idToShaderProgram })

/-- The index-buffer step of `Camera.get_render_group`: no buffer when
`vert_indices` is `None`, and no buffer when the index byte data is empty. -/
def allocIbo (s : CameraState) (sw : ShaderWrapper) : Option Nat × CameraState :=
  if sw.hasVertIndices then
    if sw.indexDataNonempty then (some (allocGL s).1, (allocGL s).2)
    else (none, s)
  else (none, s)

/-- Translation of `Camera.get_render_group`: allocate the vertex buffer, then
the optional index buffer, resolve the program through the cache, and allocate
the vertex array object. -/
def get_render_group (s : CameraState) (sw : ShaderWrapper) (su : Bool) :
    RenderGroup × CameraState :=
  let s1 := (allocGL s).2
  let s2 := (allocIbo s1 sw).2
  let s3 := (get_shader_program s2 sw).2
  ({ vbo := (allocGL s).1, ibo := (allocIbo s1 sw).1, vao := (allocGL s3).1,
     prog := ((get_shader_program s2 sw).1).map Prod.fst, sw := sw, singleUse := su },
   (allocGL s3).2)

/-- Translation of `Camera.release_render_group`: release `vbo`, `ibo` and
`vao`, skipping the entries that are `None`. -/
def release_render_group (s : CameraState) (rg : RenderGroup) : CameraState :=
  let s1 := releaseObj s rg.vbo
  let s2 := match rg.ibo with
    | some b => releaseObj s1 b
    | none => s1
  releaseObj s2 rg.vao

/-- The list comprehension inside `Camera.set_mobjects_as_static`: build one
persistent (`single_use=False`) render group per shader unit, threading the
context state left to right. -/
def buildGroups (s : CameraState) : List ShaderWrapper → List RenderGroup × CameraState
  | [] => ([], s)
  | sw :: rest =>
      let g := (get_render_group s sw false).1
      let s' := (get_render_group s sw false).2
      ((g :: (buildGroups s' rest).1), (buildGroups s' rest).2)

/-- The body of `Camera.set_mobjects_as_static` for one drawable: build its
persistent groups and assign them to `static_mobject_to_render_group_list[id(mob)]`. -/
def setStaticOne (s : CameraState) (mob : Mobject) : CameraState :=
  { (buildGroups s mob.shaderWrappers).2 with
    staticIndex :=
      dictSet mob.mid (buildGroups s mob.shaderWrappers).1
        ((buildGroups s mob.shaderWrappers).2).staticIndex }

/-- Translation of `Camera.set_mobjects_as_static`. -/
def set_mobjects_as_static (s : CameraState) (mobs : List Mobject) : CameraState :=
  mobs.foldl setStaticOne s

/-- Translation of `Camera.get_texture_id`: on a miss, take the next sequential
slot id, bump `n_textures`, load and upload the image (modelled as allocating a
fresh GL texture object) and cache the pair; always answer the cached slot id. -/
def get_texture_id (s : CameraState) (path : String) : Nat × CameraState :=
  match dictGet path s.pathToTexture with
  | some tt => (tt.1, s)
  | none =>
      (s.nTextures,
       { s with nextGL := s.nextGL + 1,
                alive := s.nextGL :: s.alive,
                nTextures := s.nTextures + 1,
                pathToTexture := dictSet path (s.nTextures, s.nextGL) s.pathToTexture })

/-- Translation of `Camera.release_texture`: pop the path's entry and, when one
was present, release the GL texture object. -/
def release_texture (s : CameraState) (path : String) : CameraState :=
  match dictGet path s.pathToTexture with
  | some tt => { (releaseObj s tt.2) with pathToTexture := dictDrop path s.pathToTexture }
  | none => s

/-- The texture loop of `Camera.set_shader_uniforms`: each texture uniform is
resolved to a slot id through `get_texture_id` and written to the program; a
name the program does not expose raises `KeyError`, which this loop does not
catch.  The returned list records the uniform assignments made. -/
def bindTextures (s : CameraState) (progNames : List String) :
    List (String × String) → Except String (List (String × Nat) × CameraState)
  | [] => Except.ok ([], s)
  | (name, path) :: rest =>
      let tid := (get_texture_id s path).1
      let s1 := (get_texture_id s path).2
      if name ∈ progNames then
        match bindTextures s1 progNames rest with
        | Except.ok (asgn, s2) => Except.ok ((name, tid) :: asgn, s2)
        | Except.error e => Except.error e
      else Except.error name

/-- The value loop of `Camera.set_shader_uniforms`: write each uniform present
on the program; a `KeyError` for a missing name is caught and ignored. -/
def bindUniforms (progNames : List String) : List (String × Nat) → List (String × Nat)
  | [] => []
  | (name, v) :: rest =>
      if name ∈ progNames then (name, v) :: bindUniforms progNames rest
      else bindUniforms progNames rest

/-- Translation of `Camera.set_shader_uniforms`: first the texture uniforms,
then the chain of the shader unit's own uniforms and the perspective uniforms.
The compiled program is modelled by the list of uniform names it exposes, and
the result records the assignments that were made. -/
def set_shader_uniforms (s : CameraState) (progNames : List String)
    (sw : ShaderWrapper) (perspective : List (String × Nat)) :
    Except String (List (String × Nat) × CameraState) :=
  match bindTextures s progNames sw.texturePaths with
  | Except.error e => Except.error e
  | Except.ok (texAsgn, s1) =>
      Except.ok (texAsgn ++ bindUniforms progNames (sw.uniforms ++ perspective), s1)

/- ===== Dictionary lemmas ===== -/

theorem dictGet_dictSet_self {K V : Type} [DecidableEq K] (k : K) (v : V) (l : List (K × V)) :
    dictGet k (dictSet k v l) = some v := by
  induction l with
  | nil => simp [dictGet, dictSet]
  | cons p rest ih =>
      obtain ⟨k', v'⟩ := p
      by_cases h : k' = k
      · simp [dictSet, dictGet, h]
      · simp [dictSet, dictGet, h, ih]

theorem dictSet_dictSet_self {K V : Type} [DecidableEq K] (k : K) (v w : V) (l : List (K × V)) :
    dictSet k v (dictSet k w l) = dictSet k v l := by
  induction l with
  | nil => simp [dictSet]
  | cons p rest ih =>
      obtain ⟨k', v'⟩ := p
      by_cases h : k' = k
      · simp [dictSet, h]
      · simp [dictSet, h, ih]

theorem dictGet_mem {K V : Type} [DecidableEq K] {k : K} {v : V} {l : List (K × V)}
    (h : dictGet k l = some v) : (k, v) ∈ l := by
  induction l with
  | nil => simp [dictGet] at h
  | cons p rest ih =>
      obtain ⟨k', v'⟩ := p
      by_cases hk : k' = k
      · subst hk
        simp only [dictGet, if_pos rfl] at h
        obtain rfl := Option.some_injective _ h
        exact List.mem_cons_self _ _
      · simp only [dictGet, hk, if_false, ite_false] at h
        exact List.mem_cons_of_mem _ (ih h)

theorem dictGet_dictDrop {K V : Type} [DecidableEq K] (k : K) (l : List (K × V)) :
    dictGet k (dictDrop k l) = none := by
  induction l with
  | nil => simp [dictDrop, dictGet]
  | cons p rest ih =>
      obtain ⟨k', v'⟩ := p
      by_cases h : k' = k
      · simpa [dictDrop, h] using ih
      · simpa [dictDrop, dictGet, h] using ih

theorem countKey_eq_zero {K V : Type} [DecidableEq K] (k : K) (l : List (K × V))
    (h : k ∉ l.map Prod.fst) : countKey k l = 0 := by
  induction l with
  | nil => simp [countKey]
  | cons p rest ih =>
      obtain ⟨k', v'⟩ := p
      simp only [List.map_cons, List.mem_cons] at h
      push_neg at h
      have hk : ¬ (k' = k) := fun hh => h.1 hh.symm
      simpa [countKey, hk] using ih h.2

theorem countKey_dictSet_self {K V : Type} [DecidableEq K] (k : K) (v : V) (l : List (K × V))
    (h : (l.map Prod.fst).Nodup) : countKey k (dictSet k v l) = 1 := by
  induction l with
  | nil => simp [dictSet, countKey]
  | cons p rest ih =>
      obtain ⟨k', v'⟩ := p
      simp only [List.map_cons, List.nodup_cons] at h
      by_cases hk : k' = k
      · subst hk
        have h0 : countKey k' rest = 0 := countKey_eq_zero _ _ h.1
        simp [dictSet, countKey] at h0 ⊢
        exact h0
      · simpa [dictSet, countKey, hk] using ih h.2

/- ===== State-threading lemmas for the render-group builder ===== -/

theorem get_shader_program_alive_mono (s : CameraState) (sw : ShaderWrapper) :
    s.alive ⊆ (get_shader_program s sw).2.alive := by
  unfold get_shader_program
  cases h : dictGet sw.progId s.idToShaderProgram with
  | some e => simp
  | none => simp [List.subset_cons_self]

theorem get_shader_program_staticIndex (s : CameraState) (sw : ShaderWrapper) :
    (get_shader_program s sw).2.staticIndex = s.staticIndex := by
  unfold get_shader_program
  cases h : dictGet sw.progId s.idToShaderProgram <;> simp

theorem allocIbo_alive_mono (s : CameraState) (sw : ShaderWrapper) :
    s.alive ⊆ (allocIbo s sw).2.alive := by
  unfold allocIbo
  split
  · split
    · simp [allocGL, List.subset_cons_self]
    · simp
  · simp

theorem allocIbo_staticIndex (s : CameraState) (sw : ShaderWrapper) :
    (allocIbo s sw).2.staticIndex = s.staticIndex := by
  unfold allocIbo
  split
  · split <;> simp [allocGL]
  · simp

theorem allocIbo_some_alive (s : CameraState) (sw : ShaderWrapper) :
    ∀ b, (allocIbo s sw).1 = some b → b ∈ (allocIbo s sw).2.alive := by
  unfold allocIbo
  split
  · split
    · intro b hb
      simp [allocGL] at hb ⊢
      left
      exact hb.symm
    · intro b hb
      simp at hb
  · intro b hb
    simp at hb

theorem get_render_group_alive_mono (s : CameraState) (sw : ShaderWrapper) (su : Bool) :
    s.alive ⊆ (get_render_group s sw su).2.alive := by
  unfold get_render_group
  intro a ha
  simp only [allocGL, List.mem_cons]
  right
  apply get_shader_program_alive_mono
  apply allocIbo_alive_mono
  simp [allocGL, List.mem_cons]
  right
  exact ha

theorem get_render_group_staticIndex (s : CameraState) (sw : ShaderWrapper) (su : Bool) :
    (get_render_group s sw su).2.staticIndex = s.staticIndex := by
  unfold get_render_group
  simp only [allocGL]
  rw [get_shader_program_staticIndex, allocIbo_staticIndex]

theorem get_render_group_buffers_alive (s : CameraState) (sw : ShaderWrapper) (su : Bool) :
    (get_render_group s sw su).1.vbo ∈ (get_render_group s sw su).2.alive ∧
    (get_render_group s sw su).1.vao ∈ (get_render_group s sw su).2.alive ∧
    ∀ b, (get_render_group s sw su).1.ibo = some b →
      b ∈ (get_render_group s sw su).2.alive := by
  unfold get_render_group
  refine ⟨?_, ?_, ?_⟩
  · simp only [allocGL, List.mem_cons]
    right
    apply get_shader_program_alive_mono
    apply allocIbo_alive_mono
    simp [allocGL]
  · simp [allocGL]
  · intro b hb
    simp only at hb
    simp only [allocGL, List.mem_cons]
    right
    apply get_shader_program_alive_mono
    exact allocIbo_some_alive _ _ _ hb

theorem buildGroups_alive_mono (l : List ShaderWrapper) (s : CameraState) :
    s.alive ⊆ (buildGroups s l).2.alive := by
  induction l generalizing s with
  | nil => simp [buildGroups]
  | cons sw rest ih =>
      intro a ha
      simp only [buildGroups]
      exact ih _ (get_render_group_alive_mono s sw false ha)

theorem buildGroups_staticIndex (l : List ShaderWrapper) (s : CameraState) :
    (buildGroups s l).2.staticIndex = s.staticIndex := by
  induction l generalizing s with
  | nil => simp [buildGroups]
  | cons sw rest ih =>
      simp only [buildGroups]
      rw [ih, get_render_group_staticIndex]

theorem buildGroups_buffers_alive (l : List ShaderWrapper) (s : CameraState) :
    ∀ g ∈ (buildGroups s l).1,
      g.vbo ∈ (buildGroups s l).2.alive ∧ g.vao ∈ (buildGroups s l).2.alive ∧
      ∀ b, g.ibo = some b → b ∈ (buildGroups s l).2.alive := by
  induction l generalizing s with
  | nil => simp [buildGroups]
  | cons sw rest ih =>
      intro g hg
      simp only [buildGroups, List.mem_cons] at hg
      rcases hg with hg | hg
      · subst hg
        obtain ⟨h1, h2, h3⟩ := get_render_group_buffers_alive s sw false
        refine ⟨?_, ?_, ?_⟩
        · exact buildGroups_alive_mono rest _ h1
        · exact buildGroups_alive_mono rest _ h2
        · intro b hb
          exact buildGroups_alive_mono rest _ (h3 b hb)
      · exact ih _ g hg

theorem setStaticOne_alive (s : CameraState) (mob : Mobject) :
    (setStaticOne s mob).alive = (buildGroups s mob.shaderWrappers).2.alive := rfl

theorem setStaticOne_staticIndex (s : CameraState) (mob : Mobject) :
    (setStaticOne s mob).staticIndex =
      dictSet mob.mid (buildGroups s mob.shaderWrappers).1 s.staticIndex := by
  simp only [setStaticOne]
  rw [buildGroups_staticIndex]

/- ===== Part 1 claim theorems ===== -/

/-- C1 (amended): promoting the same drawable identity to static twice leaves
exactly one entry for that identity in the static index (the second promotion
replaces the first, it does not duplicate it), but the GPU objects of the
first promotion's render groups are NOT released: they all remain alive after
the second promotion (a buffer leak). -/
theorem static_promotion_twice (s : CameraState) (mob : Mobject)
    (hnd : (s.staticIndex.map Prod.fst).Nodup) :
    countKey mob.mid
        (set_mobjects_as_static (set_mobjects_as_static s [mob]) [mob]).staticIndex = 1 ∧
    dictGet mob.mid
        (set_mobjects_as_static (set_mobjects_as_static s [mob]) [mob]).staticIndex =
      some (buildGroups (set_mobjects_as_static s [mob]) mob.shaderWrappers).1 ∧
    ∀ g ∈ (dictGet mob.mid (set_mobjects_as_static s [mob]).staticIndex).getD [],
      g.vbo ∈ (set_mobjects_as_static (set_mobjects_as_static s [mob]) [mob]).alive ∧
      g.vao ∈ (set_mobjects_as_static (set_mobjects_as_static s [mob]) [mob]).alive ∧
      ∀ b, g.ibo = some b →
        b ∈ (set_mobjects_as_static (set_mobjects_as_static s [mob]) [mob]).alive := by
  have hone : ∀ t : CameraState, set_mobjects_as_static t [mob] = setStaticOne t mob := by
    intro t
    simp [set_mobjects_as_static]
  rw [hone, hone]
  have hidx2 : (setStaticOne (setStaticOne s mob) mob).staticIndex =
      dictSet mob.mid (buildGroups (setStaticOne s mob) mob.shaderWrappers).1
        (dictSet mob.mid (buildGroups s mob.shaderWrappers).1 s.staticIndex) := by
    rw [setStaticOne_staticIndex, setStaticOne_staticIndex]
  refine ⟨?_, ?_, ?_⟩
  · rw [hidx2, dictSet_dictSet_self]
    exact countKey_dictSet_self _ _ _ hnd
  · rw [hidx2]
    exact dictGet_dictSet_self _ _ _
  · intro g hg
    rw [setStaticOne_staticIndex, dictGet_dictSet_self] at hg
    simp only [Option.getD_some] at hg
    obtain ⟨h1, h2, h3⟩ := buildGroups_buffers_alive mob.shaderWrappers s g hg
    rw [setStaticOne_alive]
    have hmono : (buildGroups s mob.shaderWrappers).2.alive ⊆
        (buildGroups (setStaticOne s mob) mob.shaderWrappers).2.alive := by
      intro a ha
      apply buildGroups_alive_mono
      rw [setStaticOne_alive]
      exact ha
    exact ⟨hmono h1, hmono h2, fun b hb => hmono (h3 b hb)⟩

/-- Concrete shader unit used in counterexamples and witnesses. -/
def swA : ShaderWrapper := ⟨"q", false, false, [], []⟩

/-- Concrete drawable with identity 7 and one shader unit. -/
def mobA : Mobject := ⟨7, [swA]⟩

/-- Camera state after promoting `mobA` once from the initial state. -/
def camA : CameraState := set_mobjects_as_static initCamera [mobA]

/-- Camera state after promoting `mobA` twice from the initial state. -/
def camB : CameraState := set_mobjects_as_static camA [mobA]

/-- C1 (counterexample): after the second promotion of the same drawable, the
first promotion's render group (vertex buffer 0, vertex array 2) is gone from
the static index (it now holds only the second promotion's group, with vertex
buffer 3 and vertex array 4), yet GL objects 0 and 2 are still alive: a buffer
from the first promotion remains alive, contradicting the no-leak claim. -/
theorem static_promotion_leaks :
    dictGet 7 camA.staticIndex = some [⟨0, none, 2, some 1, swA, false⟩] ∧
    dictGet 7 camB.staticIndex = some [⟨3, none, 4, some 1, swA, false⟩] ∧
    0 ∈ camB.alive ∧ 2 ∈ camB.alive := by decide

/-- Witness for `static_promotion_twice` at the initial camera state and the
concrete drawable `mobA`. -/
theorem static_promotion_twice_witness :
    (initCamera.staticIndex.map Prod.fst).Nodup ∧
    countKey 7
      (set_mobjects_as_static (set_mobjects_as_static initCamera [mobA]) [mobA]).staticIndex
        = 1 :=
  ⟨by decide, (static_promotion_twice initCamera mobA (by decide)).1⟩

/-- C6: two shader units with the same program signature resolve to the very
same cached program/vertex-format entry, and the second request changes
nothing (no second compilation); when the signature was not cached, the first
request compiles exactly one program (one fresh GL object) and caches it. -/
theorem shader_program_cached_once (s : CameraState) (sw1 sw2 : ShaderWrapper)
    (h : sw1.progId = sw2.progId) :
    (get_shader_program (get_shader_program s sw1).2 sw2).1 = (get_shader_program s sw1).1 ∧
    (get_shader_program (get_shader_program s sw1).2 sw2).2 = (get_shader_program s sw1).2 ∧
    (dictGet sw1.progId s.idToShaderProgram = none →
      (get_shader_program s sw1).2.nextGL = s.nextGL + 1 ∧
      dictGet sw1.progId (get_shader_program s sw1).2.idToShaderProgram =
        some (get_shader_program s sw1).1) := by
  cases h1 : dictGet sw1.progId s.idToShaderProgram with
  | some e =>
      have h2 : dictGet sw2.progId s.idToShaderProgram = some e := by rw [← h]; exact h1
      refine ⟨?_, ?_, ?_⟩
      · simp [get_shader_program, h1, h2]
      · simp [get_shader_program, h1, h2]
      · intro hnone
        exact absurd hnone (by simp)
  | none =>
      have hcache : dictGet sw2.progId
          (dictSet sw1.progId (some (s.nextGL, s.nextGL)) s.idToShaderProgram) =
            some (some (s.nextGL, s.nextGL)) := by
        rw [← h]
        exact dictGet_dictSet_self _ _ _
      refine ⟨?_, ?_, ?_⟩
      · simp only [get_shader_program, h1, hcache]
      · simp only [get_shader_program, h1, hcache]
      · intro _
        constructor
        · simp [get_shader_program, h1]
        · simp only [get_shader_program, h1]
          exact dictGet_dictSet_self _ _ _

/-- Witness for `shader_program_cached_once`: two units sharing signature
`"p"` but holding different uniform values resolve identically from the
initial camera state. -/
theorem shader_program_cached_once_witness :
    (get_shader_program
        (get_shader_program initCamera ⟨"p", false, false, [("u", 1)], []⟩).2
        ⟨"p", false, false, [("u", 2)], []⟩).1 =
      (get_shader_program initCamera ⟨"p", false, false, [("u", 1)], []⟩).1 :=
  (shader_program_cached_once initCamera
    ⟨"p", false, false, [("u", 1)], []⟩ ⟨"p", false, false, [("u", 2)], []⟩ rfl).1

/-- C10: in a fresh camera the program cache maps the empty signature to no
program, so a unit with the empty signature resolves to `none` with no
compilation (the state is untouched), while any unit with a non-empty
signature gets a program compiled on first request (GL object 0 is allocated
and the counter moves to 1). -/
theorem init_null_program (sw : ShaderWrapper) :
    (sw.progId = "" → get_shader_program initCamera sw = (none, initCamera)) ∧
    (sw.progId ≠ "" →
      (get_shader_program initCamera sw).1 = some (0, 0) ∧
      (get_shader_program initCamera sw).2.nextGL = 1) := by
  constructor
  · intro h0
    have hc : dictGet sw.progId init_shaders = some none := by
      simp [init_shaders, dictGet, h0]
    simp [get_shader_program, initCamera, hc]
  · intro hne
    have hc : dictGet sw.progId init_shaders = none := by
      simp only [init_shaders, dictGet]
      rw [if_neg (fun hh => hne hh.symm)]
    constructor
    · simp [get_shader_program, initCamera, hc]
    · simp [get_shader_program, initCamera, hc]

/-- Witness for `init_null_program` at a null-signature unit and at a
non-empty-signature unit. -/
theorem init_null_program_witness :
    get_shader_program initCamera ⟨"", false, false, [], []⟩ = (none, initCamera) ∧
    (get_shader_program initCamera ⟨"x", false, false, [], []⟩).1 = some (0, 0) :=
  ⟨(init_null_program ⟨"", false, false, [], []⟩).1 rfl,
   ((init_null_program ⟨"x", false, false, [], []⟩).2 (by decide)).1⟩

/-- C7: asking twice for the same texture path returns the same slot id and
does not reload (the second call leaves the state untouched); after
`release_texture` the same path gets a fresh, different slot id. -/
theorem texture_cache_roundtrip (s : CameraState) (p : String)
    (hinv : ∀ e ∈ s.pathToTexture, e.2.1 < s.nTextures) :
    (get_texture_id (get_texture_id s p).2 p).1 = (get_texture_id s p).1 ∧
    (get_texture_id (get_texture_id s p).2 p).2 = (get_texture_id s p).2 ∧
    (get_texture_id (release_texture (get_texture_id s p).2 p) p).1 ≠
      (get_texture_id s p).1 := by
  cases h : dictGet p s.pathToTexture with
  | some tt =>
      have hlt : tt.1 < s.nTextures := hinv (p, tt) (dictGet_mem h)
      have hdrop : dictGet p (dictDrop p s.pathToTexture) = none := dictGet_dictDrop _ _
      refine ⟨?_, ?_, ?_⟩
      · simp [get_texture_id, h]
      · simp [get_texture_id, h]
      · simp only [get_texture_id, h, release_texture, releaseObj, hdrop]
        intro hc
        simp only [hc] at hlt
        exact lt_irrefl _ hlt
  | none =>
      have hcache : dictGet p (dictSet p (s.nTextures, s.nextGL) s.pathToTexture) =
          some (s.nTextures, s.nextGL) := dictGet_dictSet_self _ _ _
      have hdrop : dictGet p
          (dictDrop p (dictSet p (s.nTextures, s.nextGL) s.pathToTexture)) = none :=
        dictGet_dictDrop _ _
      refine ⟨?_, ?_, ?_⟩
      · simp only [get_texture_id, h, hcache]
      · simp only [get_texture_id, h, hcache]
      · simp only [get_texture_id, h, release_texture, releaseObj, hcache, hdrop]
        simp

/-- Witness for `texture_cache_roundtrip` at the initial camera state and the
path `"a"`. -/
theorem texture_cache_roundtrip_witness :
    (get_texture_id (get_texture_id initCamera "a").2 "a").1 =
      (get_texture_id initCamera "a").1 ∧
    (get_texture_id (release_texture (get_texture_id initCamera "a").2 "a") "a").1 ≠
      (get_texture_id initCamera "a").1 := by
  obtain ⟨h1, _, h3⟩ := texture_cache_roundtrip initCamera "a" (by simp [initCamera])
  exact ⟨h1, h3⟩

theorem bindUniforms_eq_filter (progNames : List String) (l : List (String × Nat)) :
    bindUniforms progNames l = l.filter (fun e => decide (e.1 ∈ progNames)) := by
  induction l with
  | nil => simp [bindUniforms]
  | cons e rest ih =>
      obtain ⟨name, v⟩ := e
      by_cases hm : name ∈ progNames
      · simp [bindUniforms, hm, ih, List.filter]
      · simp [bindUniforms, hm, ih, List.filter]

theorem bindTextures_ok (progNames : List String) (l : List (String × String))
    (s : CameraState) (h : ∀ e ∈ l, e.1 ∈ progNames) :
    ∃ a s', bindTextures s progNames l = Except.ok (a, s') := by
  induction l generalizing s with
  | nil => exact ⟨[], s, rfl⟩
  | cons e rest ih =>
      obtain ⟨name, path⟩ := e
      have hn : name ∈ progNames := h (name, path) (List.mem_cons_self _ _)
      obtain ⟨a, s', hok⟩ := ih (get_texture_id s path).2
        (fun e he => h e (List.mem_cons_of_mem _ he))
      refine ⟨(name, (get_texture_id s path).1) :: a, s', ?_⟩
      simp only [bindTextures, hn, if_pos, hok]

/-- C8: when the program exposes every texture-uniform name the unit uses,
`set_shader_uniforms` succeeds (raises nothing), and the uniform/perspective
loop assigns exactly the names the program exposes: a name absent from the
compiled program is silently skipped while all remaining uniforms are still
bound. -/
theorem uniforms_missing_skipped (s : CameraState) (progNames : List String)
    (sw : ShaderWrapper) (persp : List (String × Nat))
    (htex : ∀ e ∈ sw.texturePaths, e.1 ∈ progNames) :
    (∃ texAsgn s',
      set_shader_uniforms s progNames sw persp =
        Except.ok (texAsgn ++
          (sw.uniforms ++ persp).filter (fun e => decide (e.1 ∈ progNames)), s')) ∧
    bindUniforms progNames (sw.uniforms ++ persp) =
      (sw.uniforms ++ persp).filter (fun e => decide (e.1 ∈ progNames)) := by
  obtain ⟨a, s', hok⟩ := bindTextures_ok progNames sw.texturePaths s htex
  refine ⟨⟨a, s', ?_⟩, bindUniforms_eq_filter _ _⟩
  simp only [set_shader_uniforms, hok, bindUniforms_eq_filter]

/-- Witness for `uniforms_missing_skipped`: a unit with no texture uniforms,
one exposed uniform `"a"`, one absent uniform `"b"` and a perspective uniform
`"persp"`. -/
theorem uniforms_missing_skipped_witness :
    bindUniforms ["a", "persp"] ([("a", 1), ("b", 2)] ++ [("persp", 3)]) =
      ([("a", 1), ("b", 2)] ++ [("persp", 3)]).filter
        (fun e => decide (e.1 ∈ ["a", "persp"])) :=
  (uniforms_missing_skipped initCamera ["a", "persp"]
    ⟨"np", false, false, [("a", 1), ("b", 2)], []⟩ [("persp", 3)] (by simp)).2

/-
Part 2 models the `CameraFrame` class: Euler angles, the quaternion pipeline of
`refresh_rotation_matrix`, and the matrix-to-Euler decomposition in `rotate`.
Float arithmetic is idealised as real arithmetic.  The helper functions from
`manimlib.utils.space_ops` and `manimlib.utils.simple_functions` are not part
of the given sources, so they are modelled from the spec as noted on each.
-/

/-- A 3-vector of reals. -/
@[ext]
structure Vec3 where
  x : ℝ
  y : ℝ
  z : ℝ

/-- The constant `OUT = (0, 0, 1)`. -/
def OUT : Vec3 := ⟨0, 0, 1⟩

/-- The constant `RIGHT = (1, 0, 0)`. -/
def RIGHT : Vec3 := ⟨1, 0, 0⟩

/-- A quaternion `[w, x, y, z]` (scalar first, as in `space_ops`). -/
@[ext]
structure Quat where
  w : ℝ
  x : ℝ
  y : ℝ
  z : ℝ

/-- Modelled from the spec: `quaternion_from_angle_axis` of `space_ops`
(missing from the sources) for an already normalized axis:
`[cos(angle/2), sin(angle/2) * axis]`. -/
noncomputable def quaternion_from_angle_axis (angle : ℝ) (axis : Vec3) : Quat :=
  ⟨Real.cos (angle / 2), Real.sin (angle / 2) * axis.x,
   Real.sin (angle / 2) * axis.y, Real.sin (angle / 2) * axis.z⟩

/-- Modelled from the spec: the Hamilton product of `space_ops.quaternion_mult`
(missing from the sources). -/
def quaternion_mult (q r : Quat) : Quat :=
  ⟨q.w * r.w - q.x * r.x - q.y * r.y - q.z * r.z,
   q.w * r.x + q.x * r.w + q.y * r.z - q.z * r.y,
   q.w * r.y + q.y * r.w + q.z * r.x - q.x * r.z,
   q.w * r.z + q.z * r.w + q.x * r.y - q.y * r.x⟩

/-- Quaternion conjugate. -/
def quatConj (q : Quat) : Quat := ⟨q.w, -q.x, -q.y, -q.z⟩

/-- Conjugation action of a quaternion on a 3-vector: the vector part of
`q * [0, v] * conj q`. -/
def quatRotate (q : Quat) (v : Vec3) : Vec3 :=
  let p := quaternion_mult (quaternion_mult q ⟨0, v.x, v.y, v.z⟩) (quatConj q)
  ⟨p.x, p.y, p.z⟩

/-- A 3 by 3 real matrix, row major. -/
@[ext]
structure Mat3 where
  a00 : ℝ
  a01 : ℝ
  a02 : ℝ
  a10 : ℝ
  a11 : ℝ
  a12 : ℝ
  a20 : ℝ
  a21 : ℝ
  a22 : ℝ

/-- Matrix product. -/
def Mat3.mul (A B : Mat3) : Mat3 :=
  ⟨A.a00 * B.a00 + A.a01 * B.a10 + A.a02 * B.a20,
   A.a00 * B.a01 + A.a01 * B.a11 + A.a02 * B.a21,
   A.a00 * B.a02 + A.a01 * B.a12 + A.a02 * B.a22,
   A.a10 * B.a00 + A.a11 * B.a10 + A.a12 * B.a20,
   A.a10 * B.a01 + A.a11 * B.a11 + A.a12 * B.a21,
   A.a10 * B.a02 + A.a11 * B.a12 + A.a12 * B.a22,
   A.a20 * B.a00 + A.a21 * B.a10 + A.a22 * B.a20,
   A.a20 * B.a01 + A.a21 * B.a11 + A.a22 * B.a21,
   A.a20 * B.a02 + A.a21 * B.a12 + A.a22 * B.a22⟩

/-- Matrix transpose. -/
def Mat3.transpose (A : Mat3) : Mat3 :=
  ⟨A.a00, A.a10, A.a20, A.a01, A.a11, A.a21, A.a02, A.a12, A.a22⟩

/-- The identity matrix. -/
def Mat3.I : Mat3 := ⟨1, 0, 0, 0, 1, 0, 0, 0, 1⟩

/-- Determinant. -/
def Mat3.det (A : Mat3) : ℝ :=
  A.a00 * (A.a11 * A.a22 - A.a12 * A.a21)
    - A.a01 * (A.a10 * A.a22 - A.a12 * A.a20)
    + A.a02 * (A.a10 * A.a21 - A.a11 * A.a20)

/-- A rotation matrix: orthogonal with determinant one. -/
def isRot (A : Mat3) : Prop :=
  A.mul A.transpose = Mat3.I ∧ A.transpose.mul A = Mat3.I ∧ A.det = 1

/-- Modelled from the spec:
`space_ops.rotation_matrix_transpose_from_quaternion` (missing from the
sources) — the matrix whose rows are the images of the basis vectors under the
quaternion's conjugation action. -/
def rotation_matrix_transpose_from_quaternion (q : Quat) : Mat3 :=
  ⟨(quatRotate q ⟨1, 0, 0⟩).x, (quatRotate q ⟨1, 0, 0⟩).y, (quatRotate q ⟨1, 0, 0⟩).z,
   (quatRotate q ⟨0, 1, 0⟩).x, (quatRotate q ⟨0, 1, 0⟩).y, (quatRotate q ⟨0, 1, 0⟩).z,
   (quatRotate q ⟨0, 0, 1⟩).x, (quatRotate q ⟨0, 0, 1⟩).y, (quatRotate q ⟨0, 0, 1⟩).z⟩

/-- Modelled from the spec: `space_ops.rotation_matrix_transpose` (missing
from the sources) — the transpose of the axis-angle rotation matrix, here for
a normalized axis, obtained through the quaternion pipeline. -/
noncomputable def rotation_matrix_transpose (angle : ℝ) (axis : Vec3) : Mat3 :=
  rotation_matrix_transpose_from_quaternion (quaternion_from_angle_axis angle axis)

/-- Modelled from the spec: `space_ops.angle_of_vector` (missing from the
sources) — `np.angle(complex(x, y))`, i.e. the complex argument, which is `0`
on the zero vector. -/
noncomputable def angle_of_vector (x y : ℝ) : ℝ := Complex.arg ⟨x, y⟩

/-- Modelled from the spec: `simple_functions.clip` (missing from the
sources) — clamp `x` into `[lo, hi]`. -/
noncomputable def clip (x lo hi : ℝ) : ℝ :=
  if x < lo then lo else if hi < x then hi else x

/-- The body of `CameraFrame.refresh_rotation_matrix`: compose the quaternions
for theta about OUT, phi about RIGHT and gamma about OUT (the variadic
`quaternion_mult` folds from the left) and convert to the transposed rotation
matrix. -/
noncomputable def refreshMatrix (theta phi gamma : ℝ) : Mat3 :=
  rotation_matrix_transpose_from_quaternion
    (quaternion_mult
      (quaternion_mult (quaternion_from_angle_axis theta OUT)
        (quaternion_from_angle_axis phi RIGHT))
      (quaternion_from_angle_axis gamma OUT))

/-- State of a `CameraFrame`: the stored Euler triple
`data["euler_angles"] = (theta, phi, gamma)`, the five control points of
`init_points` (center, left, right, bottom, top) and the stored
`inverse_camera_rotation_matrix`. -/
structure FrameState where
  theta : ℝ
  phi : ℝ
  gamma : ℝ
  points : Fin 5 → Vec3
  invRot : Mat3

/-- The well-formedness a `CameraFrame` maintains: the stored matrix is the
one recomputed from the stored triple. -/
def FrameState.wf (s : FrameState) : Prop :=
  s.invRot = refreshMatrix s.theta s.phi s.gamma

/-- Refresh the stored matrix from the stored angles
(`refresh_rotation_matrix`). -/
noncomputable def FrameState.refresh (s : FrameState) : FrameState :=
  { s with invRot := refreshMatrix s.theta s.phi s.gamma }

/-- The constant `RADIANS = 1`. -/
def RADIANS : ℝ := 1

/-- The constant `DEGREES` (radians per degree). -/
noncomputable def DEGREES : ℝ := Real.pi / 180

/-- Translation of `CameraFrame.set_euler_angles`: update only the supplied
angles, scaled by `units`, then refresh the rotation matrix. -/
noncomputable def set_euler_angles (s : FrameState)
    (tOpt pOpt gOpt : Option ℝ) (units : ℝ) : FrameState :=
  FrameState.refresh
    { s with
      theta := match tOpt with | some t => t * units | none => s.theta,
      phi := match pOpt with | some p => p * units | none => s.phi,
      gamma := match gOpt with | some g => g * units | none => s.gamma }

/-- Translation of `CameraFrame.reorient`: `set_euler_angles` in degrees. -/
noncomputable def reorient (s : FrameState) (tOpt pOpt gOpt : Option ℝ) : FrameState :=
  set_euler_angles s tOpt pOpt gOpt DEGREES

/-- Translation of `CameraFrame.set_theta`. -/
noncomputable def set_theta (s : FrameState) (theta : ℝ) : FrameState :=
  set_euler_angles s (some theta) none none RADIANS

/-- Translation of `CameraFrame.set_phi`. -/
noncomputable def set_phi (s : FrameState) (phi : ℝ) : FrameState :=
  set_euler_angles s none (some phi) none RADIANS

/-- Translation of `CameraFrame.set_gamma`. -/
noncomputable def set_gamma (s : FrameState) (gamma : ℝ) : FrameState :=
  set_euler_angles s none none (some gamma) RADIANS

/-- Translation of `CameraFrame.increment_theta`: unconstrained addition, then
refresh. -/
noncomputable def increment_theta (s : FrameState) (dtheta : ℝ) : FrameState :=
  FrameState.refresh { s with theta := s.theta + dtheta }

/-- Translation of `CameraFrame.increment_phi`: add, clamp into `[0, pi]`,
then refresh. -/
noncomputable def increment_phi (s : FrameState) (dphi : ℝ) : FrameState :=
  FrameState.refresh { s with phi := clip (s.phi + dphi) 0 Real.pi }

/-- Translation of `CameraFrame.increment_gamma`: unconstrained addition, then
refresh. -/
noncomputable def increment_gamma (s : FrameState) (dgamma : ℝ) : FrameState :=
  FrameState.refresh { s with gamma := s.gamma + dgamma }

/-- Translation of `CameraFrame.rotate`: compose the axis-angle rotation's
transpose onto the current inverse rotation matrix, decompose the result back
into an Euler triple (`phi` by arccos of the clipped corner entry, `theta`
from the third row, `gamma` from the residual twist) and store it through
`set_euler_angles`. -/
noncomputable def rotate (s : FrameState) (angle : ℝ) (axis : Vec3) : FrameState :=
  let newRotT := s.invRot.mul (rotation_matrix_transpose angle axis)
  let phi := Real.arccos (clip newRotT.a22 (-1) 1)
  let theta := angle_of_vector newRotT.a20 newRotT.a21 + Real.pi / 2
  let partRotT := (rotation_matrix_transpose phi RIGHT).mul
    (rotation_matrix_transpose theta OUT)
  let residual := partRotT.mul newRotT.transpose
  let gamma := angle_of_vector residual.a00 residual.a10
  set_euler_angles s (some theta) (some phi) (some gamma) RADIANS

/-- Translation of `CameraFrame.get_width`: difference of the x-coordinates of
the right and left control points. -/
def get_width (s : FrameState) : ℝ := (s.points 2).x - (s.points 1).x

/-- Translation of `CameraFrame.get_height`: difference of the y-coordinates
of the top and bottom control points. -/
def get_height (s : FrameState) : ℝ := (s.points 4).y - (s.points 3).y

/-- A concrete default frame: the Euler triple `(0, 0, 0)` with its refreshed
matrix, all control points at the origin. -/
noncomputable def frame0 : FrameState :=
  { theta := 0, phi := 0, gamma := 0, points := fun _ => ⟨0, 0, 0⟩,
    invRot := refreshMatrix 0 0 0 }

/- ===== Part 2: simple frame theorems ===== -/

/-- C9: `rotate` mutates only the Euler triple and the stored inverse rotation
matrix; the control points are untouched, so `get_width` and `get_height`
return the same values before and after the rotation. -/
theorem rotate_preserves_extent (s : FrameState) (angle : ℝ) (axis : Vec3) :
    (rotate s angle axis).points = s.points ∧
    get_width (rotate s angle axis) = get_width s ∧
    get_height (rotate s angle axis) = get_height s :=
  ⟨rfl, rfl, rfl⟩

/-- C2 (counterexample): the pose-mutating operation `set_phi` applies no
clamping, so from the default frame `set_phi` with argument `4` stores
`phi = 4`, which is strictly greater than `pi` — the claimed invariant
`phi ∈ [0, pi]` after every pose-mutating operation fails. -/
theorem phi_invariant_fails : Real.pi < (set_phi frame0 4).phi := by
  have h : (set_phi frame0 4).phi = 4 := by
    simp [set_phi, set_euler_angles, FrameState.refresh, RADIANS]
  rw [h]
  have h315 := Real.pi_lt_d2
  linarith

/-- The pose-mutating operations of `CameraFrame`. -/
inductive PoseOp where
  | setEuler (tOpt pOpt gOpt : Option ℝ) (units : ℝ)
  | reorientPose (tOpt pOpt gOpt : Option ℝ)
  | setPhiPose (phi : ℝ)
  | incTheta (d : ℝ)
  | incPhi (d : ℝ)
  | incGamma (d : ℝ)
  | rotatePose (angle : ℝ) (axis : Vec3)

/-- Interpretation of a pose-mutating operation on a frame state. -/
noncomputable def applyPoseOp (s : FrameState) : PoseOp → FrameState
  | .setEuler t p g u => set_euler_angles s t p g u
  | .reorientPose t p g => reorient s t p g
  | .setPhiPose p => set_phi s p
  | .incTheta d => increment_theta s d
  | .incPhi d => increment_phi s d
  | .incGamma d => increment_gamma s d
  | .rotatePose a ax => rotate s a ax

/-- The operations that cannot move `phi` out of `[0, pi]`: everything except
an explicit phi assignment (`set_euler_angles`/`reorient` with a supplied phi,
or `set_phi`), which clamps nothing. -/
def phiSafe : PoseOp → Prop
  | .setEuler _ pOpt _ _ => pOpt = none
  | .reorientPose _ pOpt _ => pOpt = none
  | .setPhiPose _ => False
  | _ => True

theorem clip_mem (x lo hi : ℝ) (h : lo ≤ hi) :
    lo ≤ clip x lo hi ∧ clip x lo hi ≤ hi := by
  unfold clip
  split
  next => exact ⟨le_rfl, h⟩
  next h1 =>
    split
    next => exact ⟨h, le_rfl⟩
    next h2 => exact ⟨le_of_not_lt h1, le_of_not_lt h2⟩

theorem phiSafe_step (s : FrameState) (op : PoseOp) (hop : phiSafe op)
    (h0 : 0 ≤ s.phi) (h1 : s.phi ≤ Real.pi) :
    0 ≤ (applyPoseOp s op).phi ∧ (applyPoseOp s op).phi ≤ Real.pi := by
  cases op with
  | setEuler t p g u =>
      have hp : p = none := hop
      subst hp
      exact ⟨h0, h1⟩
  | reorientPose t p g =>
      have hp : p = none := hop
      subst hp
      exact ⟨h0, h1⟩
  | setPhiPose p => exact absurd hop (by simp [phiSafe])
  | incTheta d => exact ⟨h0, h1⟩
  | incGamma d => exact ⟨h0, h1⟩
  | incPhi d => exact clip_mem (s.phi + d) 0 Real.pi Real.pi_pos.le
  | rotatePose a ax =>
      have hval : (applyPoseOp s (.rotatePose a ax)).phi =
          Real.arccos (clip (s.invRot.mul (rotation_matrix_transpose a ax)).a22 (-1) 1) := by
        simp [applyPoseOp, rotate, set_euler_angles, FrameState.refresh, RADIANS]
      rw [hval]
      exact ⟨Real.arccos_nonneg _, Real.arccos_le_pi _⟩

/-- C2 (amended): `phi` stays in `[0, pi]` along every sequence of pose
operations made of `increment_theta/phi/gamma`, `rotate`, and
`set_euler_angles`/`reorient` calls that do not supply phi; but an operation
that supplies phi (`set_euler_angles` with phi, `set_phi`, `reorient` with
phi) clamps nothing and can store any value, as `phi_invariant_fails` shows. -/
theorem phi_range_safe_ops (s : FrameState) (ops : List PoseOp)
    (hsafe : ∀ op ∈ ops, phiSafe op) (h0 : 0 ≤ s.phi) (h1 : s.phi ≤ Real.pi) :
    0 ≤ (ops.foldl applyPoseOp s).phi ∧ (ops.foldl applyPoseOp s).phi ≤ Real.pi := by
  induction ops generalizing s with
  | nil => exact ⟨h0, h1⟩
  | cons op rest ih =>
      obtain ⟨g0, g1⟩ := phiSafe_step s op (hsafe op (List.mem_cons_self _ _)) h0 h1
      exact ih _ (fun o ho => hsafe o (List.mem_cons_of_mem _ ho)) g0 g1

/-- Witness for `phi_range_safe_ops`: a rotation followed by a large phi
increment, starting at the default frame. -/
theorem phi_range_safe_ops_witness :
    (∀ op ∈ [PoseOp.incPhi 7, PoseOp.rotatePose 1 OUT], phiSafe op) ∧
    0 ≤ frame0.phi ∧ frame0.phi ≤ Real.pi ∧
    (0 ≤ ([PoseOp.incPhi 7, PoseOp.rotatePose 1 OUT].foldl applyPoseOp frame0).phi ∧
      ([PoseOp.incPhi 7, PoseOp.rotatePose 1 OUT].foldl applyPoseOp frame0).phi
        ≤ Real.pi) := by
  have hsafe : ∀ op ∈ [PoseOp.incPhi 7, PoseOp.rotatePose 1 OUT], phiSafe op := by
    intro op hop
    simp only [List.mem_cons, List.not_mem_nil, or_false] at hop
    rcases hop with rfl | rfl
    · trivial
    · trivial
  have h0 : 0 ≤ frame0.phi := le_of_eq rfl
  have h1 : frame0.phi ≤ Real.pi := by
    have : frame0.phi = 0 := rfl
    rw [this]
    exact Real.pi_pos.le
  exact ⟨hsafe, h0, h1, phi_range_safe_ops frame0 _ hsafe h0 h1⟩

/-- C4: a `set_euler_angles` call leaves every unsupplied angle unchanged and
always re-establishes `invRot = refreshMatrix(theta, phi, gamma)`; hence along
any sequence of partial calls the stored matrix always equals the one
recomputed from the full stored triple. -/
theorem set_euler_angles_unsupplied (s : FrameState) (tOpt pOpt gOpt : Option ℝ)
    (u : ℝ) :
    (tOpt = none → (set_euler_angles s tOpt pOpt gOpt u).theta = s.theta) ∧
    (pOpt = none → (set_euler_angles s tOpt pOpt gOpt u).phi = s.phi) ∧
    (gOpt = none → (set_euler_angles s tOpt pOpt gOpt u).gamma = s.gamma) ∧
    FrameState.wf (set_euler_angles s tOpt pOpt gOpt u) ∧
    (∀ calls : List ((Option ℝ × Option ℝ × Option ℝ) × ℝ), FrameState.wf s →
      FrameState.wf (calls.foldl
        (fun a c => set_euler_angles a c.1.1 c.1.2.1 c.1.2.2 c.2) s)) := by
  refine ⟨?_, ?_, ?_, rfl, ?_⟩
  · rintro rfl; rfl
  · rintro rfl; rfl
  · rintro rfl; rfl
  · intro calls
    induction calls generalizing s with
    | nil => exact fun h => h
    | cons c rest ih => exact fun _ => ih _ rfl

/-- Witness for `set_euler_angles_unsupplied`: an all-`none` call on the default
frame, and the empty call sequence from the default frame. -/
theorem set_euler_angles_unsupplied_witness :
    (set_euler_angles frame0 none none none 1).theta = frame0.theta ∧
    FrameState.wf (([] :
        List ((Option ℝ × Option ℝ × Option ℝ) × ℝ)).foldl
      (fun a c => set_euler_angles a c.1.1 c.1.2.1 c.1.2.2 c.2) frame0) :=
  ⟨(set_euler_angles_unsupplied frame0 none none none 1).1 rfl,
   (set_euler_angles_unsupplied frame0 none none none 1).2.2.2.2 [] rfl⟩

theorem phi_pinned_hi (ds : List ℝ) (s : FrameState) (hpos : ∀ x ∈ ds, 0 ≤ x)
    (h0 : 0 ≤ s.phi) (h1 : s.phi ≤ Real.pi) (hsum : Real.pi ≤ s.phi + ds.sum) :
    (ds.foldl increment_phi s).phi = Real.pi := by
  induction ds generalizing s with
  | nil =>
      simp only [List.sum_nil, add_zero] at hsum
      exact le_antisymm h1 hsum
  | cons d rest ih =>
      have hd : 0 ≤ d := hpos d (List.mem_cons_self _ _)
      have hrest : ∀ x ∈ rest, 0 ≤ x := fun x hx => hpos x (List.mem_cons_of_mem _ hx)
      have hrsum : 0 ≤ rest.sum := List.sum_nonneg hrest
      have hphi : (increment_phi s d).phi = clip (s.phi + d) 0 Real.pi := rfl
      obtain ⟨c0, c1⟩ := clip_mem (s.phi + d) 0 Real.pi Real.pi_pos.le
      have hnext : Real.pi ≤ (increment_phi s d).phi + rest.sum := by
        rw [hphi]
        unfold clip
        split
        next hlt => linarith
        next =>
          split
          next => linarith
          next hle =>
            simp only [List.sum_cons] at hsum
            linarith
      exact ih _ hrest (hphi ▸ c0) (hphi ▸ c1) hnext

theorem list_sum_nonpos (l : List ℝ) (h : ∀ x ∈ l, x ≤ 0) : l.sum ≤ 0 := by
  induction l with
  | nil => simp
  | cons a rest ih =>
      simp only [List.sum_cons]
      have ha := h a (List.mem_cons_self _ _)
      have hr := ih (fun x hx => h x (List.mem_cons_of_mem _ hx))
      linarith

theorem phi_pinned_lo (ds : List ℝ) (s : FrameState) (hneg : ∀ x ∈ ds, x ≤ 0)
    (h0 : 0 ≤ s.phi) (h1 : s.phi ≤ Real.pi) (hsum : s.phi + ds.sum ≤ 0) :
    (ds.foldl increment_phi s).phi = 0 := by
  induction ds generalizing s with
  | nil =>
      simp only [List.sum_nil, add_zero] at hsum
      exact le_antisymm hsum h0
  | cons d rest ih =>
      have hd : d ≤ 0 := hneg d (List.mem_cons_self _ _)
      have hrest : ∀ x ∈ rest, x ≤ 0 := fun x hx => hneg x (List.mem_cons_of_mem _ hx)
      have hrsum : rest.sum ≤ 0 := list_sum_nonpos rest hrest
      have hphi : (increment_phi s d).phi = clip (s.phi + d) 0 Real.pi := rfl
      obtain ⟨c0, c1⟩ := clip_mem (s.phi + d) 0 Real.pi Real.pi_pos.le
      have hnext : (increment_phi s d).phi + rest.sum ≤ 0 := by
        rw [hphi]
        unfold clip
        split
        next => linarith
        next hge =>
          split
          next hlt =>
            simp only [List.sum_cons] at hsum
            have := Real.pi_pos
            linarith
          next =>
            simp only [List.sum_cons] at hsum
            linarith
      exact ih _ hrest (hphi ▸ c0) (hphi ▸ c1) hnext

/-- C5: `increment_phi(d)` stores exactly `clip(phi + d, 0, pi)`, and the
clamp saturates: any sequence of nonnegative increments whose cumulative sum
reaches `pi` leaves phi pinned at `pi`, and any sequence of nonpositive
increments whose cumulative sum reaches `0` leaves phi pinned at `0`. -/
theorem increment_phi_clamps (s : FrameState) (d : ℝ) :
    (increment_phi s d).phi = clip (s.phi + d) 0 Real.pi ∧
    (∀ ds : List ℝ, (∀ x ∈ ds, 0 ≤ x) → 0 ≤ s.phi → s.phi ≤ Real.pi →
      Real.pi ≤ s.phi + ds.sum → (ds.foldl increment_phi s).phi = Real.pi) ∧
    (∀ ds : List ℝ, (∀ x ∈ ds, x ≤ 0) → 0 ≤ s.phi → s.phi ≤ Real.pi →
      s.phi + ds.sum ≤ 0 → (ds.foldl increment_phi s).phi = 0) :=
  ⟨rfl,
   fun ds hpos h0 h1 hsum => phi_pinned_hi ds s hpos h0 h1 hsum,
   fun ds hneg h0 h1 hsum => phi_pinned_lo ds s hneg h0 h1 hsum⟩

/-- Witness for `increment_phi_clamps`: one increment from the default frame,
and the singleton decrement `[-1]` keeps phi pinned at `0`. -/
theorem increment_phi_clamps_witness :
    (increment_phi frame0 1).phi = clip (frame0.phi + 1) 0 Real.pi ∧
    ([(-1 : ℝ)].foldl increment_phi frame0).phi = 0 := by
  refine ⟨(increment_phi_clamps frame0 1).1, ?_⟩
  apply (increment_phi_clamps frame0 1).2.2 [(-1 : ℝ)]
  · intro x hx
    simp only [List.mem_singleton] at hx
    subst hx
    norm_num
  · exact le_of_eq rfl
  · have : frame0.phi = 0 := rfl
    rw [this]
    exact Real.pi_pos.le
  · have : frame0.phi = 0 := rfl
    rw [this]
    norm_num

/- ===== Matrix and quaternion algebra for the rotate decomposition ===== -/

theorem Mat3.mul_assoc (A B C : Mat3) : (A.mul B).mul C = A.mul (B.mul C) := by
  ext <;> simp [Mat3.mul] <;> ring

theorem Mat3.transpose_mul (A B : Mat3) :
    (A.mul B).transpose = B.transpose.mul A.transpose := by
  ext <;> simp [Mat3.mul, Mat3.transpose] <;> ring

theorem Mat3.transpose_transpose (A : Mat3) : A.transpose.transpose = A := rfl

theorem Mat3.I_mul (A : Mat3) : Mat3.I.mul A = A := by
  ext <;> simp [Mat3.mul, Mat3.I]

theorem Mat3.mul_I (A : Mat3) : A.mul Mat3.I = A := by
  ext <;> simp [Mat3.mul, Mat3.I]

theorem Mat3.det_mul (A B : Mat3) : (A.mul B).det = A.det * B.det := by
  simp only [Mat3.det, Mat3.mul]
  ring

theorem Mat3.det_transpose (A : Mat3) : A.transpose.det = A.det := by
  simp only [Mat3.det, Mat3.transpose]
  ring

theorem isRot_mul {A B : Mat3} (hA : isRot A) (hB : isRot B) : isRot (A.mul B) := by
  obtain ⟨hA1, hA2, hA3⟩ := hA
  obtain ⟨hB1, hB2, hB3⟩ := hB
  refine ⟨?_, ?_, ?_⟩
  · rw [Mat3.transpose_mul]
    have h : (A.mul B).mul (B.transpose.mul A.transpose)
        = A.mul ((B.mul B.transpose).mul A.transpose) := by
      ext <;> simp [Mat3.mul, Mat3.transpose] <;> ring
    rw [h, hB1, Mat3.I_mul, hA1]
  · rw [Mat3.transpose_mul]
    have h : (B.transpose.mul A.transpose).mul (A.mul B)
        = B.transpose.mul ((A.transpose.mul A).mul B) := by
      ext <;> simp [Mat3.mul, Mat3.transpose] <;> ring
    rw [h, hA2, Mat3.I_mul, hB2]
  · rw [Mat3.det_mul, hA3, hB3, one_mul]

theorem isRot_transpose {A : Mat3} (hA : isRot A) : isRot A.transpose := by
  obtain ⟨h1, h2, h3⟩ := hA
  exact ⟨by rw [Mat3.transpose_transpose]; exact h2,
         by rw [Mat3.transpose_transpose]; exact h1,
         by rw [Mat3.det_transpose]; exact h3⟩

theorem cos_halves (a : ℝ) :
    Real.cos a = Real.cos (a / 2) ^ 2 - Real.sin (a / 2) ^ 2 := by
  conv_lhs => rw [show a = 2 * (a / 2) by ring]
  exact Real.cos_two_mul' _

theorem sin_halves (a : ℝ) :
    Real.sin a = 2 * Real.sin (a / 2) * Real.cos (a / 2) := by
  conv_lhs => rw [show a = 2 * (a / 2) by ring]
  exact Real.sin_two_mul _

/-- The explicit transposed rotation matrix about the z-axis. -/
noncomputable def RzT (a : ℝ) : Mat3 :=
  ⟨Real.cos a, Real.sin a, 0, -Real.sin a, Real.cos a, 0, 0, 0, 1⟩

/-- The explicit transposed rotation matrix about the x-axis. -/
noncomputable def RxT (a : ℝ) : Mat3 :=
  ⟨1, 0, 0, 0, Real.cos a, Real.sin a, 0, -Real.sin a, Real.cos a⟩

theorem rmt_OUT (a : ℝ) : rotation_matrix_transpose a OUT = RzT a := by
  have hc := cos_halves a
  have hs := sin_halves a
  have hp := Real.sin_sq_add_cos_sq (a / 2)
  ext <;>
    simp only [rotation_matrix_transpose, rotation_matrix_transpose_from_quaternion,
      quaternion_from_angle_axis, quatRotate, quaternion_mult, quatConj, OUT, RzT] <;>
    first
      | ring1
      | linear_combination hc
      | linear_combination (-1 : ℝ) * hc
      | linear_combination hs
      | linear_combination (-1 : ℝ) * hs
      | linear_combination hp

theorem rmt_RIGHT (a : ℝ) : rotation_matrix_transpose a RIGHT = RxT a := by
  have hc := cos_halves a
  have hs := sin_halves a
  have hp := Real.sin_sq_add_cos_sq (a / 2)
  ext <;>
    simp only [rotation_matrix_transpose, rotation_matrix_transpose_from_quaternion,
      quaternion_from_angle_axis, quatRotate, quaternion_mult, quatConj, RIGHT, RxT] <;>
    first
      | ring1
      | linear_combination hc
      | linear_combination (-1 : ℝ) * hc
      | linear_combination hs
      | linear_combination (-1 : ℝ) * hs
      | linear_combination hp

theorem matT_mult (p q : Quat) :
    rotation_matrix_transpose_from_quaternion (quaternion_mult p q) =
      (rotation_matrix_transpose_from_quaternion q).mul
        (rotation_matrix_transpose_from_quaternion p) := by
  ext <;>
    simp [rotation_matrix_transpose_from_quaternion, quatRotate, quaternion_mult,
      quatConj, Mat3.mul] <;>
    ring

theorem refreshMatrix_eq (theta phi gamma : ℝ) :
    refreshMatrix theta phi gamma = (RzT gamma).mul ((RxT phi).mul (RzT theta)) := by
  unfold refreshMatrix
  rw [matT_mult, matT_mult]
  have h1 : rotation_matrix_transpose_from_quaternion
      (quaternion_from_angle_axis theta OUT) = RzT theta := rmt_OUT theta
  have h2 : rotation_matrix_transpose_from_quaternion
      (quaternion_from_angle_axis phi RIGHT) = RxT phi := rmt_RIGHT phi
  have h3 : rotation_matrix_transpose_from_quaternion
      (quaternion_from_angle_axis gamma OUT) = RzT gamma := rmt_OUT gamma
  rw [h1, h2, h3]

theorem matT_isRot (q : Quat) (h : q.w ^ 2 + q.x ^ 2 + q.y ^ 2 + q.z ^ 2 = 1) :
    isRot (rotation_matrix_transpose_from_quaternion q) := by
  refine ⟨?_, ?_, ?_⟩
  · ext <;>
      simp [rotation_matrix_transpose_from_quaternion, quatRotate, quaternion_mult,
        quatConj, Mat3.mul, Mat3.transpose, Mat3.I] <;>
      first
        | ring1
        | linear_combination (q.w ^ 2 + q.x ^ 2 + q.y ^ 2 + q.z ^ 2 + 1) * h
  · ext <;>
      simp [rotation_matrix_transpose_from_quaternion, quatRotate, quaternion_mult,
        quatConj, Mat3.mul, Mat3.transpose, Mat3.I] <;>
      first
        | ring1
        | linear_combination (q.w ^ 2 + q.x ^ 2 + q.y ^ 2 + q.z ^ 2 + 1) * h
  · simp only [rotation_matrix_transpose_from_quaternion, quatRotate, quaternion_mult,
      quatConj, Mat3.det]
    linear_combination
      ((q.w ^ 2 + q.x ^ 2 + q.y ^ 2 + q.z ^ 2) ^ 2
        + (q.w ^ 2 + q.x ^ 2 + q.y ^ 2 + q.z ^ 2) + 1) * h

theorem rmt_isRot (angle : ℝ) (axis : Vec3)
    (hax : axis.x ^ 2 + axis.y ^ 2 + axis.z ^ 2 = 1) :
    isRot (rotation_matrix_transpose angle axis) := by
  apply matT_isRot
  simp only [quaternion_from_angle_axis]
  have hp := Real.sin_sq_add_cos_sq (angle / 2)
  linear_combination hp + Real.sin (angle / 2) ^ 2 * hax

theorem isRot_RzT (a : ℝ) : isRot (RzT a) := by
  refine ⟨?_, ?_, ?_⟩
  · ext <;> simp [RzT, Mat3.mul, Mat3.transpose, Mat3.I] <;>
      first
        | ring1
        | linear_combination Real.sin_sq_add_cos_sq a
  · ext <;> simp [RzT, Mat3.mul, Mat3.transpose, Mat3.I] <;>
      first
        | ring1
        | linear_combination Real.sin_sq_add_cos_sq a
  · simp only [RzT, Mat3.det]
    linear_combination Real.sin_sq_add_cos_sq a

theorem isRot_RxT (a : ℝ) : isRot (RxT a) := by
  refine ⟨?_, ?_, ?_⟩
  · ext <;> simp [RxT, Mat3.mul, Mat3.transpose, Mat3.I] <;>
      first
        | ring1
        | linear_combination Real.sin_sq_add_cos_sq a
  · ext <;> simp [RxT, Mat3.mul, Mat3.transpose, Mat3.I] <;>
      first
        | ring1
        | linear_combination Real.sin_sq_add_cos_sq a
  · simp only [RxT, Mat3.det]
    linear_combination Real.sin_sq_add_cos_sq a

theorem RxT_mul_RzT (p t : ℝ) : (RxT p).mul (RzT t) =
    ⟨Real.cos t, Real.sin t, 0,
     -(Real.cos p * Real.sin t), Real.cos p * Real.cos t, Real.sin p,
     Real.sin p * Real.sin t, -(Real.sin p * Real.cos t), Real.cos p⟩ := by
  ext <;> simp [RxT, RzT, Mat3.mul]

theorem isRot_I : isRot Mat3.I := by
  refine ⟨?_, ?_, ?_⟩
  · ext <;> simp [Mat3.mul, Mat3.transpose, Mat3.I]
  · ext <;> simp [Mat3.mul, Mat3.transpose, Mat3.I]
  · simp [Mat3.det, Mat3.I]

theorem angle_cos_sin (x y : ℝ) :
    Real.sqrt (x ^ 2 + y ^ 2) * Real.cos (angle_of_vector x y) = x ∧
    Real.sqrt (x ^ 2 + y ^ 2) * Real.sin (angle_of_vector x y) = y := by
  by_cases hz : (⟨x, y⟩ : ℂ) = 0
  · have hx : x = 0 := congrArg Complex.re hz
    have hy : y = 0 := congrArg Complex.im hz
    subst hx; subst hy
    simp [angle_of_vector]
  · have habs : Complex.abs ⟨x, y⟩ = Real.sqrt (x ^ 2 + y ^ 2) := by
      rw [Complex.abs_apply, Complex.normSq_mk]
      rw [show x * x + y * y = x ^ 2 + y ^ 2 by ring]
    have hne : Complex.abs (⟨x, y⟩ : ℂ) ≠ 0 := (Complex.abs.pos hz).ne'
    constructor
    · rw [angle_of_vector, Complex.cos_arg hz, ← habs]
      field_simp
    · rw [angle_of_vector, Complex.sin_arg, ← habs]
      field_simp

theorem so3_fix_ez (B : Mat3) (hB : isRot B) (h02 : B.a02 = 0) (h12 : B.a12 = 0)
    (h22 : B.a22 = 1) :
    B.a20 = 0 ∧ B.a21 = 0 ∧ B.a11 = B.a00 ∧ B.a01 = -B.a10 ∧
      B.a00 ^ 2 + B.a10 ^ 2 = 1 := by
  obtain ⟨h1, h2, h3⟩ := hB
  obtain ⟨b00, b01, b02, b10, b11, b12, b20, b21, b22⟩ := B
  have hb02 : b02 = 0 := h02
  have hb12 : b12 = 0 := h12
  have hb22 : b22 = 1 := h22
  subst hb02; subst hb12; subst hb22
  have hrow2 := congrArg Mat3.a22 h1
  have hcol0 := congrArg Mat3.a00 h2
  have horth := congrArg Mat3.a01 h2
  simp only [Mat3.mul, Mat3.transpose, Mat3.I, Mat3.det] at hrow2 hcol0 horth h3
  have hsum : b20 ^ 2 + b21 ^ 2 = 0 := by linear_combination hrow2
  have h20 : b20 = 0 := by
    have hs : b20 ^ 2 = 0 := le_antisymm (by nlinarith [sq_nonneg b21]) (sq_nonneg b20)
    exact sq_eq_zero_iff.mp hs
  have h21 : b21 = 0 := by
    have hs : b21 ^ 2 = 0 := le_antisymm (by nlinarith [sq_nonneg b20]) (sq_nonneg b21)
    exact sq_eq_zero_iff.mp hs
  subst h20; subst h21
  have hcol : b00 ^ 2 + b10 ^ 2 = 1 := by linear_combination hcol0
  have horth' : b00 * b01 + b10 * b11 = 0 := by linear_combination horth
  have hdet : b00 * b11 - b01 * b10 = 1 := by linear_combination h3
  refine ⟨rfl, rfl, ?_, ?_, hcol⟩
  · linear_combination b10 * horth' + b00 * hdet - b11 * hcol
  · linear_combination b00 * horth' - b10 * hdet - b01 * hcol

theorem euler_decomp (N : Mat3) (hN : isRot N) :
    refreshMatrix (angle_of_vector N.a20 N.a21 + Real.pi / 2)
      (Real.arccos (clip N.a22 (-1) 1))
      (angle_of_vector
        (((rotation_matrix_transpose (Real.arccos (clip N.a22 (-1) 1)) RIGHT).mul
            (rotation_matrix_transpose (angle_of_vector N.a20 N.a21 + Real.pi / 2) OUT)).mul
          N.transpose).a00
        (((rotation_matrix_transpose (Real.arccos (clip N.a22 (-1) 1)) RIGHT).mul
            (rotation_matrix_transpose (angle_of_vector N.a20 N.a21 + Real.pi / 2) OUT)).mul
          N.transpose).a10) = N := by
  obtain ⟨hN1, hN2, hN3⟩ := hN
  have hrow2 := congrArg Mat3.a22 hN1
  simp only [Mat3.mul, Mat3.transpose, Mat3.I] at hrow2
  have hw1 : -1 ≤ N.a22 := by nlinarith [sq_nonneg N.a20, sq_nonneg N.a21, sq_nonneg (N.a22 + 1)]
  have hw2 : N.a22 ≤ 1 := by nlinarith [sq_nonneg N.a20, sq_nonneg N.a21, sq_nonneg (N.a22 - 1)]
  have hclip : clip N.a22 (-1) 1 = N.a22 := by
    unfold clip
    rw [if_neg (not_lt.mpr hw1), if_neg (not_lt.mpr hw2)]
  rw [hclip, rmt_RIGHT, rmt_OUT, refreshMatrix_eq]
  have hcosph : Real.cos (Real.arccos N.a22) = N.a22 := Real.cos_arccos hw1 hw2
  have h1w : 1 - N.a22 ^ 2 = N.a20 ^ 2 + N.a21 ^ 2 := by linear_combination (-1 : ℝ) * hrow2
  have hsinph : Real.sin (Real.arccos N.a22) = Real.sqrt (N.a20 ^ 2 + N.a21 ^ 2) := by
    rw [Real.sin_arccos, h1w]
  set r := Real.sqrt (N.a20 ^ 2 + N.a21 ^ 2) with hrdef
  have hr2 : r ^ 2 = N.a20 ^ 2 + N.a21 ^ 2 := Real.sq_sqrt (by positivity)
  set ag := angle_of_vector N.a20 N.a21 with hagdef
  obtain ⟨hcx, hsy⟩ := angle_cos_sin N.a20 N.a21
  have hcth : r * Real.cos (ag + Real.pi / 2) = -N.a21 := by
    rw [Real.cos_add_pi_div_two]
    linear_combination (-1 : ℝ) * hsy
  have hsth : r * Real.sin (ag + Real.pi / 2) = N.a20 := by
    rw [Real.sin_add_pi_div_two]
    exact hcx
  have ha20 : N.a20 = r * Real.sin (ag + Real.pi / 2) := hsth.symm
  have ha21 : N.a21 = -(r * Real.cos (ag + Real.pi / 2)) := by linarith [hcth]
  set P := (RxT (Real.arccos N.a22)).mul (RzT (ag + Real.pi / 2)) with hPdefn
  have hPd : P = ⟨Real.cos (ag + Real.pi / 2), Real.sin (ag + Real.pi / 2), 0,
      -(Real.cos (Real.arccos N.a22) * Real.sin (ag + Real.pi / 2)),
      Real.cos (Real.arccos N.a22) * Real.cos (ag + Real.pi / 2),
      Real.sin (Real.arccos N.a22),
      Real.sin (Real.arccos N.a22) * Real.sin (ag + Real.pi / 2),
      -(Real.sin (Real.arccos N.a22) * Real.cos (ag + Real.pi / 2)),
      Real.cos (Real.arccos N.a22)⟩ :=
    RxT_mul_RzT (Real.arccos N.a22) (ag + Real.pi / 2)
  set B := P.mul N.transpose with hBd
  have e02 : B.a02 = Real.cos (ag + Real.pi / 2) * N.a20
      + Real.sin (ag + Real.pi / 2) * N.a21 := by
    rw [hBd, hPd]
    simp only [Mat3.mul, Mat3.transpose]
    try ring1
  have e12 : B.a12 = -(Real.cos (Real.arccos N.a22) * Real.sin (ag + Real.pi / 2)) * N.a20
      + Real.cos (Real.arccos N.a22) * Real.cos (ag + Real.pi / 2) * N.a21
      + Real.sin (Real.arccos N.a22) * N.a22 := by
    rw [hBd, hPd]
    simp only [Mat3.mul, Mat3.transpose]
    try ring1
  have e22 : B.a22 = Real.sin (Real.arccos N.a22) * Real.sin (ag + Real.pi / 2) * N.a20
      + -(Real.sin (Real.arccos N.a22) * Real.cos (ag + Real.pi / 2)) * N.a21
      + Real.cos (Real.arccos N.a22) * N.a22 := by
    rw [hBd, hPd]
    simp only [Mat3.mul, Mat3.transpose]
    try ring1
  have hpy := Real.sin_sq_add_cos_sq (ag + Real.pi / 2)
  have hB02 : B.a02 = 0 := by
    rw [e02, ha20, ha21]
    ring
  have hB12 : B.a12 = 0 := by
    rw [e12, ha20, ha21, hsinph, hcosph]
    linear_combination (-(N.a22 * r)) * hpy
  have hB22 : B.a22 = 1 := by
    rw [e22, ha20, ha21, hsinph, hcosph]
    linear_combination (r ^ 2) * hpy + hr2 + hrow2
  have hProt : isRot P := by
    rw [hPdefn]
    exact isRot_mul (isRot_RxT _) (isRot_RzT _)
  have hBrot : isRot B := by
    rw [hBd]
    exact isRot_mul hProt (isRot_transpose ⟨hN1, hN2, hN3⟩)
  obtain ⟨h20, h21, h11, h01, hcol⟩ := so3_fix_ez B hBrot hB02 hB12 hB22
  set ga := angle_of_vector B.a00 B.a10 with hgadef
  obtain ⟨hga1, hga2⟩ := angle_cos_sin B.a00 B.a10
  rw [hcol, Real.sqrt_one, one_mul] at hga1 hga2
  have hRz : RzT ga = B.transpose := by
    ext <;> simp only [RzT, Mat3.transpose]
    · exact hga1
    · exact hga2
    · exact h20.symm
    · rw [hga2]; exact h01.symm
    · rw [hga1]; exact h11.symm
    · exact h21.symm
    · exact hB02.symm
    · exact hB12.symm
    · exact hB22.symm
  rw [hRz, hBd, Mat3.transpose_mul, Mat3.transpose_transpose, Mat3.mul_assoc,
    hProt.2.1, Mat3.mul_I]

/-- C3: starting from any camera frame whose stored inverse rotation matrix is
a rotation, `rotate(angle, axis)` (for a normalized axis) stores, via the
arccos/angle-of decomposition and `refresh_rotation_matrix`, exactly the
matrix product of the prior inverse rotation matrix with the transpose of the
axis-angle rotation matrix: the decomposition round trip reconstructs the
composed matrix. -/
theorem rotate_reconstructs (s : FrameState) (angle : ℝ) (axis : Vec3)
    (hR : isRot s.invRot) (hax : axis.x ^ 2 + axis.y ^ 2 + axis.z ^ 2 = 1) :
    (rotate s angle axis).invRot =
      s.invRot.mul (rotation_matrix_transpose angle axis) := by
  have hN : isRot (s.invRot.mul (rotation_matrix_transpose angle axis)) :=
    isRot_mul hR (rmt_isRot angle axis hax)
  have hout : (rotate s angle axis).invRot =
      refreshMatrix
        (angle_of_vector (s.invRot.mul (rotation_matrix_transpose angle axis)).a20
            (s.invRot.mul (rotation_matrix_transpose angle axis)).a21 + Real.pi / 2)
        (Real.arccos
          (clip (s.invRot.mul (rotation_matrix_transpose angle axis)).a22 (-1) 1))
        (angle_of_vector
          (((rotation_matrix_transpose
                (Real.arccos
                  (clip (s.invRot.mul (rotation_matrix_transpose angle axis)).a22 (-1) 1))
                RIGHT).mul
              (rotation_matrix_transpose
                (angle_of_vector
                    (s.invRot.mul (rotation_matrix_transpose angle axis)).a20
                    (s.invRot.mul (rotation_matrix_transpose angle axis)).a21
                  + Real.pi / 2) OUT)).mul
            (s.invRot.mul (rotation_matrix_transpose angle axis)).transpose).a00
          (((rotation_matrix_transpose
                (Real.arccos
                  (clip (s.invRot.mul (rotation_matrix_transpose angle axis)).a22 (-1) 1))
                RIGHT).mul
              (rotation_matrix_transpose
                (angle_of_vector
                    (s.invRot.mul (rotation_matrix_transpose angle axis)).a20
                    (s.invRot.mul (rotation_matrix_transpose angle axis)).a21
                  + Real.pi / 2) OUT)).mul
            (s.invRot.mul (rotation_matrix_transpose angle axis)).transpose).a10) := by
    simp only [rotate, set_euler_angles, FrameState.refresh, RADIANS, mul_one]
  rw [hout]
  exact euler_decomp _ hN

theorem refreshMatrix_zero : refreshMatrix 0 0 0 = Mat3.I := by
  rw [refreshMatrix_eq]
  ext <;> simp [RzT, RxT, Mat3.mul, Mat3.I]

/-- Witness for `rotate_reconstructs`: the default frame, a zero-angle
rotation and the normalized axis `OUT`. -/
theorem rotate_reconstructs_witness :
    (OUT.x ^ 2 + OUT.y ^ 2 + OUT.z ^ 2 = 1) ∧
    (rotate frame0 0 OUT).invRot =
      frame0.invRot.mul (rotation_matrix_transpose 0 OUT) := by
  have haxis : OUT.x ^ 2 + OUT.y ^ 2 + OUT.z ^ 2 = 1 := by
    simp [OUT]
  have hfr : isRot frame0.invRot := by
    rw [show frame0.invRot = refreshMatrix 0 0 0 from rfl, refreshMatrix_zero]
    exact isRot_I
  exact ⟨haxis, rotate_reconstructs frame0 0 OUT hfr haxis⟩

end Manim
